import Mathlib

/-!
Shallow embedding of the domain logic of the recipe-app-api repository
(a multi-user recipe catalog with per-owner tags and ingredients).

Sources embedded directly:
  - src/app/core/models.py       (User manager, Recipe/Tag/Ingredient rows)
  - src/app/recipe/serializers.py (recipe serializer scalar field list)

The recipe/tag/ingredient viewsets and the nested tag/ingredient serializer
logic of this repository are not present under src/ (only their tests are);
following the specification document those parts are modelled from the spec,
and each such definition says so in its doc comment.
-/

namespace RecipeApp

/-- Row of core.models.Tag and of core.models.Ingredient (src/app/core/models.py).
Both models consist of exactly `name = CharField(max_length=255)` and
`user = ForeignKey(AUTH_USER_MODEL)` plus the implicit integer primary key,
so a single row type serves both tables. -/
structure Entity where
  id : Nat
  name : String
  user : Nat
deriving DecidableEq

/-- core.models.Tag rows. -/
abbrev Tag := Entity

/-- core.models.Ingredient rows. -/
abbrev Ingredient := Entity

/-- A decimal literal as submitted for Recipe.price: the denoted value is
mantissa / 10 ^ scale, where `scale` is the number of fractional digits
written (kept, trailing zeros included, exactly as python's Decimal keeps
the exponent of the parsed literal). -/
structure DecimalIn where
  mantissa : Int
  scale : Nat
deriving DecidableEq

/-- Row of core.models.Recipe (src/app/core/models.py): user FK, title
CharField(255), description TextField(blank), time_minutes IntegerField,
price DecimalField(max_digits=5, decimal_places=2), link CharField(255, blank),
plus the two many-to-many association id sets.  The image field is not
modelled (no claim concerns it). -/
structure RecipeRow where
  id : Nat
  user : Nat
  title : String
  description : String
  time_minutes : Int
  price : DecimalIn
  link : String
  tagIds : List Nat
  ingredientIds : List Nat
deriving DecidableEq

/-- The persistent store: one table per model plus the autoincrement
counters that hand out primary keys. -/
structure DB where
  tags : List Entity
  ingredients : List Entity
  recipes : List RecipeRow
  nextTagId : Nat
  nextIngredientId : Nat
  nextRecipeId : Nat
deriving DecidableEq

def emptyDB : DB := ⟨[], [], [], 0, 0, 0⟩

/-- A recipe write payload.  `none` means the field is absent from the payload
(the PATCH distinction the spec insists on); `tags`/`ingredients` carry the
inline name lists.  The `user` field is carried so that claims about it can be
stated; the serializer field list (src/app/recipe/serializers.py: id, title,
time_minutes, price, link, and description on the detail serializer) never
includes user, so no operation below reads it. -/
structure RecipePayload where
  title : Option String
  description : Option String
  time_minutes : Option Int
  price : Option DecimalIn
  link : Option String
  tags : Option (List String)
  ingredients : Option (List String)
  user : Option Nat
deriving DecidableEq

/-- Python str.strip on a character list: drop whitespace from both ends. -/
def pyStrip (s : List Char) : List Char :=
  ((s.dropWhile Char.isWhitespace).reverse.dropWhile Char.isWhitespace).reverse

/-- Python str.strip on a String (DRF CharField trims written values by
default, trim_whitespace=True). -/
def strip (s : String) : String := ⟨pyStrip s.toList⟩

/-- Exact-match lookup of an entity by owner and (case-sensitive, untrimmed)
name: the first matching row of the table. -/
def findEntity (rows : List Entity) (owner : Nat) (n : String) : Option Entity :=
  rows.find? fun t => t.user == owner && t.name == n

/-- Modelled from the spec: the Find-or-Create Resolver (spec §4.2), i.e. the
`objects.get_or_create(user=..., name=...)` call of the nested tag/ingredient
handling in the recipe serializer, which is absent from src/.  Looks up an
existing entity with exact-match name owned by `owner`; if found returns it
(store untouched), otherwise creates one with the next primary key.
Returns (entity, table rows, next primary key). -/
def resolve (rows : List Entity) (next owner : Nat) (n : String) :
    Entity × List Entity × Nat :=
  match findEntity rows owner n with
  | some t => (t, rows, next)
  | none => (⟨next, n, owner⟩, rows ++ [⟨next, n, owner⟩], next + 1)

/-- Modelled from the spec: resolution of a whole inline name list (spec §4.3),
resolving each name in order through `resolve` and collecting the entity ids.
Returns (ids, table rows, next primary key). -/
def resolveNames (rows : List Entity) (next owner : Nat) :
    List String → List Nat × List Entity × Nat
  | [] => ([], rows, next)
  | n :: ns =>
      let q := resolve rows next owner n
      let q' := resolveNames q.2.1 q.2.2 owner ns
      (q.1.id :: q'.1, q'.2.1, q'.2.2)

/-- Modelled from the spec: the Recipe Relation Synchronizer (spec §4.3).
An absent name list (`none`) leaves the association ids untouched; a present
list fully replaces them with the resolved ids, duplicates collapsed
(set semantics).  Returns (association ids, table rows, next primary key). -/
def syncIds (rows : List Entity) (next owner : Nat) (old : List Nat) :
    Option (List String) → List Nat × List Entity × Nat
  | none => (old, rows, next)
  | some names =>
      let q := resolveNames rows next owner names
      (q.1.dedup, q.2.1, q.2.2)

/-- DRF CharField validation for Recipe.title as generated by the
ModelSerializer from `title = CharField(max_length=255)` (src models.py):
required, blank forbidden, value trimmed, at most 255 characters. -/
def validTitle (t : String) : Bool :=
  (strip t != "") && decide ((strip t).length ≤ 255)

/-- DRF CharField validation for Recipe.link (`CharField(max_length=255,
blank=True)`): blank allowed, trimmed, at most 255 characters. -/
def validLink (l : String) : Bool := decide ((strip l).length ≤ 255)

/-- DRF IntegerField validation for Recipe.time_minutes: a model IntegerField
carries django's 32-bit range validators and nothing else (in particular no
non-negativity check). -/
def validTime (t : Int) : Bool :=
  decide (-2147483648 ≤ t) && decide (t ≤ 2147483647)

/-- DRF DecimalField(max_digits=5, decimal_places=2) digit checks on the
parsed literal: fractional digits ≤ 2 (decimal_places); total digits ≤ 5
(max_digits, i.e. |mantissa| < 10^5 counting the kept trailing zeros); whole
digits ≤ max_digits - decimal_places = 3 (i.e. |mantissa| < 10^(3+scale)).
No sign check: negative prices pass. -/
def validPrice (d : DecimalIn) : Bool :=
  decide (d.scale ≤ 2) && decide (d.mantissa.natAbs < 10 ^ 5)
    && decide (d.mantissa.natAbs < 10 ^ (3 + d.scale))

/-- Scalar validation of a recipe write payload, derived from the serializer
field list (src/app/recipe/serializers.py) and the model field declarations
(src/app/core/models.py).  With `patch = true` (partial update) absent fields
are allowed; otherwise title, time_minutes and price are required.  link and
description are optional in both modes (blank=True). -/
def validateScalars (patch : Bool) (p : RecipePayload) : Bool :=
  (match p.title with | none => patch | some t => validTitle t)
  && (match p.time_minutes with | none => patch | some t => validTime t)
  && (match p.price with | none => patch | some d => validPrice d)
  && (match p.link with | none => true | some l => validLink l)

/-- Outcome of a recipe write; the error constructors carry the store after
the request, which the operations leave equal to the store before it. -/
inductive WriteOutcome where
  | ok (db : DB) (r : RecipeRow)
  | notFound (db : DB)
  | validationError (db : DB)
deriving DecidableEq

def WriteOutcome.isOk : WriteOutcome → Bool
  | .ok _ _ => true
  | _ => false

/-- Owner-scoped recipe lookup (spec §4.1): a recipe of another owner is as
absent as a nonexistent id. -/
def findRecipe (db : DB) (owner rid : Nat) : Option RecipeRow :=
  db.recipes.find? fun r => r.id == rid && r.user == owner

/-- Modelled from the spec: Recipe Write Service create (spec §4.4); the
recipe viewset / nested-serializer create flow is absent from src/.  Scalars
are validated first (no side effects on failure); the owner is the
authenticated caller, the payload user field is never read; tag and
ingredient names are resolved and attached with set semantics. -/
def createRecipe (db : DB) (caller : Nat) (p : RecipePayload) : WriteOutcome :=
  if validateScalars false p then
    match p.title, p.time_minutes, p.price with
    | some title, some tm, some price =>
        let qt := resolveNames db.tags db.nextTagId caller (p.tags.getD [])
        let qi := resolveNames db.ingredients db.nextIngredientId caller
          (p.ingredients.getD [])
        let r : RecipeRow :=
          { id := db.nextRecipeId, user := caller, title := strip title,
            description := strip (p.description.getD ""), time_minutes := tm,
            price := price, link := strip (p.link.getD ""),
            tagIds := qt.1.dedup, ingredientIds := qi.1.dedup }
        .ok { db with tags := qt.2.1, nextTagId := qt.2.2,
                      ingredients := qi.2.1, nextIngredientId := qi.2.2,
                      recipes := db.recipes ++ [r],
                      nextRecipeId := db.nextRecipeId + 1 } r
    | _, _, _ => .validationError db
  else .validationError db

/-- Modelled from the spec: Recipe Write Service update (spec §4.4, steps 2-5);
the recipe viewset / nested-serializer update flow is absent from src/.
Owner-scoped load (not-found collapses ownership, §4.1), scalar validation
(`patch` distinguishes PATCH from PUT), scalar field application for provided
fields only, then relation synchronization per §4.3 for each name list present
in the payload.  The payload user field is never read (it is not among the
serializer fields, src/app/recipe/serializers.py), so ownership is never
reassigned. -/
def updateRecipe (db : DB) (caller rid : Nat) (patch : Bool)
    (p : RecipePayload) : WriteOutcome :=
  match findRecipe db caller rid with
  | none => .notFound db
  | some r =>
      if validateScalars patch p then
        let qt := syncIds db.tags db.nextTagId caller r.tagIds p.tags
        let qi := syncIds db.ingredients db.nextIngredientId caller
          r.ingredientIds p.ingredients
        let r' : RecipeRow :=
          { r with title := (p.title.map strip).getD r.title,
                   description := (p.description.map strip).getD r.description,
                   time_minutes := p.time_minutes.getD r.time_minutes,
                   price := p.price.getD r.price,
                   link := (p.link.map strip).getD r.link,
                   tagIds := qt.1, ingredientIds := qi.1 }
        .ok { db with tags := qt.2.1, nextTagId := qt.2.2,
                      ingredients := qi.2.1, nextIngredientId := qi.2.2,
                      recipes := db.recipes.map fun s =>
                        if s.id == rid then r' else s } r'
      else .validationError db

/-- Outcome of a delete request; notFound carries the unchanged store. -/
inductive DeleteOutcome where
  | ok (db : DB)
  | notFound (db : DB)
deriving DecidableEq

/-- Modelled from the spec: recipe delete (spec §6): owner-scoped lookup,
404 when absent or owned by someone else, removal of the row (and with it its
association ids) on success. -/
def deleteRecipe (db : DB) (caller rid : Nat) : DeleteOutcome :=
  match findRecipe db caller rid with
  | none => .notFound db
  | some _ =>
      .ok { db with recipes := db.recipes.filter fun r =>
              !(r.id == rid && r.user == caller) }

/-- Outcome of a tag or ingredient write. -/
inductive TagOutcome where
  | ok (db : DB) (t : Entity)
  | notFound (db : DB)
deriving DecidableEq

/-- Modelled from the spec: tag update, spec §6 owner-scoped CRUD (the tag
serializer and viewset are absent from src/): load the tag by id scoped to
the caller (not-found for other owners, §4.1), then overwrite its name with
the (trimmed) payload name.  No uniqueness check is specified or performed. -/
def updateTag (db : DB) (caller tid : Nat) (newName : String) : TagOutcome :=
  match db.tags.find? (fun t => t.id == tid && t.user == caller) with
  | none => .notFound db
  | some t =>
      let t' : Entity := { t with name := strip newName }
      .ok { db with tags := db.tags.map fun s =>
              if s.id == tid then t' else s } t'

/-- Modelled from the spec: ingredient update, symmetric to `updateTag`. -/
def updateIngredient (db : DB) (caller iid : Nat) (newName : String) :
    TagOutcome :=
  match db.ingredients.find? (fun t => t.id == iid && t.user == caller) with
  | none => .notFound db
  | some t =>
      let t' : Entity := { t with name := strip newName }
      .ok { db with ingredients := db.ingredients.map fun s =>
              if s.id == iid then t' else s } t'

/-- Name-descending order used by the tag listing (order_by "-name"). -/
def nameGE (a b : Entity) : Prop := b.name ≤ a.name

instance : DecidableRel nameGE :=
  fun a b => inferInstanceAs (Decidable (b.name ≤ a.name))

instance : IsTotal Entity nameGE := ⟨fun a b => le_total b.name a.name⟩

instance : IsTrans Entity nameGE := ⟨fun _ _ _ hab hbc => le_trans hbc hab⟩

/-- Does some recipe of `owner` reference tag id `i`? -/
def assignedTag (db : DB) (owner : Nat) (i : Nat) : Bool :=
  db.recipes.any fun r => r.user == owner && r.tagIds.contains i

/-- Modelled from the spec: Filter Query Builder listTags (spec §4.5) — the
tag viewset (get_queryset with the assigned_only flag) is absent from src/.
All tags owned by `owner`; with `assignedOnly`, only those associated with at
least one of the owner's recipes; result ordered by name descending.  The
de-duplication of the source query is inherent here because table rows are
returned at most once by the filter. -/
def listTags (db : DB) (owner : Nat) (assignedOnly : Bool) : List Entity :=
  List.insertionSort nameGE
    (db.tags.filter fun t =>
      t.user == owner && (!assignedOnly || assignedTag db owner t.id))

/-- Per-owner name uniqueness of one entity table: no two rows share both
owner and name. -/
def namesUniqueFor : List Entity → Bool
  | [] => true
  | e :: es =>
      es.all (fun s => !(s.user == e.user && s.name == e.name))
        && namesUniqueFor es

/-- The per-owner name invariant of spec §3, over both tables. -/
def DB.ownerNamesUnique (db : DB) : Bool :=
  namesUniqueFor db.tags && namesUniqueFor db.ingredients

/-- Well-formed store: primary keys are unique per table (django hands out
autoincrement primary keys). -/
def DB.WF (db : DB) : Prop :=
  (db.tags.map Entity.id).Nodup ∧ (db.ingredients.map Entity.id).Nodup
    ∧ (db.recipes.map RecipeRow.id).Nodup

instance (db : DB) : Decidable db.WF :=
  decidable_of_iff ((db.tags.map Entity.id).Nodup
    ∧ (db.ingredients.map Entity.id).Nodup
    ∧ (db.recipes.map RecipeRow.id).Nodup) Iff.rfl

/-- Modelled from the spec: one public write request of the system
(spec §6 exposed surface): recipe create, recipe full/partial update (with
optional inline tag/ingredient name lists), tag update, ingredient update. -/
inductive Step : DB → DB → Prop where
  | createR (db : DB) (caller : Nat) (p : RecipePayload) (db' : DB)
      (r : RecipeRow) : createRecipe db caller p = .ok db' r → Step db db'
  | updateR (db : DB) (caller rid : Nat) (patch : Bool) (p : RecipePayload)
      (db' : DB) (r : RecipeRow) :
      updateRecipe db caller rid patch p = .ok db' r → Step db db'
  | updateT (db : DB) (caller tid : Nat) (nm : String) (db' : DB)
      (t : Entity) : updateTag db caller tid nm = .ok db' t → Step db db'
  | updateI (db : DB) (caller iid : Nat) (nm : String) (db' : DB)
      (t : Entity) : updateIngredient db caller iid nm = .ok db' t → Step db db'

/-- States reachable from the empty store through public writes. -/
def Reachable (db : DB) : Prop := Relation.ReflTransGen Step emptyDB db

/-- The resolver-driven writes only: recipe create and update (the
operations whose tag/ingredient handling goes through the resolver). -/
inductive SyncStep : DB → DB → Prop where
  | createR (db : DB) (caller : Nat) (p : RecipePayload) (db' : DB)
      (r : RecipeRow) : createRecipe db caller p = .ok db' r → SyncStep db db'
  | updateR (db : DB) (caller rid : Nat) (patch : Bool) (p : RecipePayload)
      (db' : DB) (r : RecipeRow) :
      updateRecipe db caller rid patch p = .ok db' r → SyncStep db db'

/-- States reachable from the empty store through resolver-driven writes. -/
def SyncReachable (db : DB) : Prop := Relation.ReflTransGen SyncStep emptyDB db

/-! ### Resolver lemmas -/

theorem findEntity_mem_user_name {rows : List Entity} {owner : Nat} {n : String}
    {t : Entity} (h : findEntity rows owner n = some t) :
    t ∈ rows ∧ t.user = owner ∧ t.name = n := by
  refine ⟨List.mem_of_find?_eq_some h, ?_, ?_⟩
  · have := List.find?_some h
    simp only [Bool.and_eq_true, beq_iff_eq] at this
    exact this.1
  · have := List.find?_some h
    simp only [Bool.and_eq_true, beq_iff_eq] at this
    exact this.2

theorem resolve_found {rows : List Entity} {next owner : Nat} {n : String}
    {t : Entity} (h : findEntity rows owner n = some t) :
    resolve rows next owner n = (t, rows, next) := by
  simp [resolve, h]

theorem resolve_notFound {rows : List Entity} {next owner : Nat} {n : String}
    (h : findEntity rows owner n = none) :
    resolve rows next owner n =
      (⟨next, n, owner⟩, rows ++ [⟨next, n, owner⟩], next + 1) := by
  simp [resolve, h]

theorem findEntity_resolve_self (rows : List Entity) (next owner : Nat)
    (n : String) :
    findEntity (resolve rows next owner n).2.1 owner n =
      some (resolve rows next owner n).1 := by
  cases h : findEntity rows owner n with
  | some t => rw [resolve_found h]; exact h
  | none =>
      rw [resolve_notFound h]
      unfold findEntity at h ⊢
      rw [List.find?_append, h]
      simp

theorem findEntity_resolve_mono {rows : List Entity} {next owner : Nat}
    {n : String} {owner' : Nat} {m : String} {s : Entity}
    (h : findEntity rows owner' m = some s) :
    findEntity (resolve rows next owner n).2.1 owner' m = some s := by
  cases hf : findEntity rows owner n with
  | some t => rw [resolve_found hf]; exact h
  | none =>
      rw [resolve_notFound hf]
      unfold findEntity at h ⊢
      rw [List.find?_append, h]
      rfl

theorem resolveNames_mono {owner' : Nat} {m : String} {s : Entity} :
    ∀ (names : List String) (rows : List Entity) (next owner : Nat),
    findEntity rows owner' m = some s →
    findEntity (resolveNames rows next owner names).2.1 owner' m = some s := by
  intro names
  induction names with
  | nil => intro rows next owner h; exact h
  | cons n ns ih =>
      intro rows next owner h
      simp only [resolveNames]
      exact ih _ _ _ (findEntity_resolve_mono h)

theorem resolveNames_forward :
    ∀ (names : List String) (rows : List Entity) (next owner : Nat),
    ∀ n ∈ names, ∃ t,
      findEntity (resolveNames rows next owner names).2.1 owner n = some t
        ∧ t.id ∈ (resolveNames rows next owner names).1 := by
  intro names
  induction names with
  | nil => intro rows next owner n hn; cases hn
  | cons n₀ ns ih =>
      intro rows next owner n hn
      simp only [resolveNames]
      rcases List.mem_cons.mp hn with h | h
      · subst h
        refine ⟨(resolve rows next owner n).1, ?_, ?_⟩
        · exact resolveNames_mono ns _ _ _ (findEntity_resolve_self rows next owner n)
        · exact List.mem_cons_self _ _
      · rcases ih (resolve rows next owner n₀).2.1
          (resolve rows next owner n₀).2.2 owner n h with ⟨t, h1, h2⟩
        exact ⟨t, h1, List.mem_cons_of_mem _ h2⟩

theorem resolveNames_backward :
    ∀ (names : List String) (rows : List Entity) (next owner : Nat),
    ∀ i ∈ (resolveNames rows next owner names).1, ∃ n ∈ names, ∃ t,
      findEntity (resolveNames rows next owner names).2.1 owner n = some t
        ∧ t.id = i := by
  intro names
  induction names with
  | nil => intro rows next owner i hi; cases hi
  | cons n₀ ns ih =>
      intro rows next owner i hi
      simp only [resolveNames] at hi ⊢
      rcases List.mem_cons.mp hi with h | h
      · refine ⟨n₀, List.mem_cons_self _ _, (resolve rows next owner n₀).1, ?_, h.symm⟩
        exact resolveNames_mono ns _ _ _ (findEntity_resolve_self rows next owner n₀)
      · rcases ih (resolve rows next owner n₀).2.1
          (resolve rows next owner n₀).2.2 owner i h with ⟨n, hn, t, h1, h2⟩
        exact ⟨n, List.mem_cons_of_mem _ hn, t, h1, h2⟩

theorem resolveNames_mem_iff {names : List String} {rows : List Entity}
    {next owner : Nat} {i : Nat} :
    i ∈ (resolveNames rows next owner names).1 ↔
      ∃ n ∈ names, ∃ t,
        findEntity (resolveNames rows next owner names).2.1 owner n = some t
          ∧ t.id = i := by
  constructor
  · exact resolveNames_backward names rows next owner i
  · rintro ⟨n, hn, t, hfind, hid⟩
    rcases resolveNames_forward names rows next owner n hn with ⟨t', h1, h2⟩
    rw [hfind] at h1
    cases h1
    exact hid ▸ h2

/-! ### Per-owner name uniqueness is preserved by the resolver -/

theorem namesUniqueFor_append {rows : List Entity} {e : Entity}
    (h : namesUniqueFor rows = true)
    (h2 : ∀ s ∈ rows, ¬(s.user = e.user ∧ s.name = e.name)) :
    namesUniqueFor (rows ++ [e]) = true := by
  induction rows with
  | nil => simp [namesUniqueFor]
  | cons a as ih =>
      simp only [namesUniqueFor, Bool.and_eq_true, List.all_eq_true,
        List.cons_append, List.append_eq] at h ⊢
      refine ⟨?_, ih h.2 fun s hs => h2 s (List.mem_cons_of_mem _ hs)⟩
      intro s hs
      rcases List.mem_append.mp hs with hs | hs
      · exact h.1 s hs
      · have hse : s = e := List.mem_singleton.mp hs
        rw [hse]
        have := h2 a (List.mem_cons_self _ _)
        simp only [Bool.not_eq_true', Bool.and_eq_false_iff, beq_eq_false_iff_ne,
          ne_eq]
        by_cases hu : e.user = a.user
        · right; intro hn; exact this ⟨hu.symm, hn.symm⟩
        · left; exact hu

theorem resolve_uniq {rows : List Entity} {next owner : Nat} {n : String}
    (h : namesUniqueFor rows = true) :
    namesUniqueFor (resolve rows next owner n).2.1 = true := by
  cases hf : findEntity rows owner n with
  | some t => rw [resolve_found hf]; exact h
  | none =>
      rw [resolve_notFound hf]
      refine namesUniqueFor_append h ?_
      intro s hs hc
      have hnone := List.find?_eq_none.mp hf s hs
      simp only [Bool.and_eq_true, beq_iff_eq, not_and] at hnone
      exact hnone hc.1 hc.2

theorem resolveNames_uniq :
    ∀ (names : List String) (rows : List Entity) (next owner : Nat),
    namesUniqueFor rows = true →
    namesUniqueFor (resolveNames rows next owner names).2.1 = true := by
  intro names
  induction names with
  | nil => intro rows next owner h; exact h
  | cons n ns ih =>
      intro rows next owner h
      simp only [resolveNames]
      exact ih _ _ _ (resolve_uniq h)

theorem syncIds_uniq {rows : List Entity} {next owner : Nat} {old : List Nat}
    (names? : Option (List String)) (h : namesUniqueFor rows = true) :
    namesUniqueFor (syncIds rows next owner old names?).2.1 = true := by
  cases names? with
  | none => exact h
  | some names => simp only [syncIds]; exact resolveNames_uniq names rows next owner h

/-! ### Inversion of the recipe write operations -/

theorem createRecipe_ok_inv {db : DB} {caller : Nat} {p : RecipePayload}
    {db' : DB} {r : RecipeRow} (h : createRecipe db caller p = .ok db' r) :
    ∃ title tm price, p.title = some title ∧ p.time_minutes = some tm
      ∧ p.price = some price ∧ validateScalars false p = true
      ∧ r = { id := db.nextRecipeId, user := caller, title := strip title,
              description := strip (p.description.getD ""), time_minutes := tm,
              price := price, link := strip (p.link.getD ""),
              tagIds := (resolveNames db.tags db.nextTagId caller
                (p.tags.getD [])).1.dedup,
              ingredientIds := (resolveNames db.ingredients db.nextIngredientId
                caller (p.ingredients.getD [])).1.dedup }
      ∧ db' = { db with
              tags := (resolveNames db.tags db.nextTagId caller
                (p.tags.getD [])).2.1,
              nextTagId := (resolveNames db.tags db.nextTagId caller
                (p.tags.getD [])).2.2,
              ingredients := (resolveNames db.ingredients db.nextIngredientId
                caller (p.ingredients.getD [])).2.1,
              nextIngredientId := (resolveNames db.ingredients
                db.nextIngredientId caller (p.ingredients.getD [])).2.2,
              recipes := db.recipes ++ [r],
              nextRecipeId := db.nextRecipeId + 1 } := by
  cases hv : validateScalars false p with
  | false => rw [createRecipe, hv] at h; simp at h
  | true =>
      rw [createRecipe, hv] at h
      simp only [if_true] at h
      cases ht : p.title with
      | none => rw [ht] at h; simp at h
      | some title =>
          cases htm : p.time_minutes with
          | none => rw [ht, htm] at h; simp at h
          | some tm =>
              cases hpr : p.price with
              | none => rw [ht, htm, hpr] at h; simp at h
              | some price =>
                  rw [ht, htm, hpr] at h
                  simp only [WriteOutcome.ok.injEq] at h
                  obtain ⟨h1, h2⟩ := h
                  subst h1
                  subst h2
                  exact ⟨title, tm, price, rfl, rfl, rfl, rfl, rfl, rfl⟩

theorem updateRecipe_ok_inv {db : DB} {caller rid : Nat} {patch : Bool}
    {p : RecipePayload} {db' : DB} {r' : RecipeRow}
    (h : updateRecipe db caller rid patch p = .ok db' r') :
    ∃ r, findRecipe db caller rid = some r ∧ validateScalars patch p = true
      ∧ r' = { r with
              title := (p.title.map strip).getD r.title,
              description := (p.description.map strip).getD r.description,
              time_minutes := p.time_minutes.getD r.time_minutes,
              price := p.price.getD r.price,
              link := (p.link.map strip).getD r.link,
              tagIds := (syncIds db.tags db.nextTagId caller r.tagIds p.tags).1,
              ingredientIds := (syncIds db.ingredients db.nextIngredientId
                caller r.ingredientIds p.ingredients).1 }
      ∧ db' = { db with
              tags := (syncIds db.tags db.nextTagId caller r.tagIds p.tags).2.1,
              nextTagId := (syncIds db.tags db.nextTagId caller r.tagIds
                p.tags).2.2,
              ingredients := (syncIds db.ingredients db.nextIngredientId caller
                r.ingredientIds p.ingredients).2.1,
              nextIngredientId := (syncIds db.ingredients db.nextIngredientId
                caller r.ingredientIds p.ingredients).2.2,
              recipes := db.recipes.map fun s => if s.id == rid then r' else s } := by
  cases hf : findRecipe db caller rid with
  | none => rw [updateRecipe, hf] at h; simp at h
  | some r =>
      cases hv : validateScalars patch p with
      | false => rw [updateRecipe, hf, hv] at h; simp at h
      | true =>
          rw [updateRecipe, hf, hv] at h
          simp only [if_true, WriteOutcome.ok.injEq] at h
          obtain ⟨h1, h2⟩ := h
          subst h1
          subst h2
          exact ⟨r, rfl, rfl, rfl, rfl⟩

/-! ### Claim theorems -/

/-- C1: for every recipe update whose payload carries a tag (resp. ingredient)
name list, the recipe's association id set afterwards is exactly the set of
ids of the entities the names resolve to — prior associations outside the
resolved set are gone, resolved entities are all present, nothing else is
(full replacement, not merge). -/
theorem c1_full_replacement :
    ∀ (db : DB) (caller rid : Nat) (patch : Bool) (p : RecipePayload)
      (names inames : List String) (db' : DB) (r' : RecipeRow),
    updateRecipe db caller rid patch p = .ok db' r' →
    (p.tags = some names →
      ∀ i, i ∈ r'.tagIds ↔ ∃ n ∈ names, ∃ t,
        findEntity db'.tags caller n = some t ∧ t.id = i)
    ∧ (p.ingredients = some inames →
      ∀ i, i ∈ r'.ingredientIds ↔ ∃ n ∈ inames, ∃ t,
        findEntity db'.ingredients caller n = some t ∧ t.id = i) := by
  intro db caller rid patch p names inames db' r' h
  obtain ⟨r, hf, hv, hr', hdb'⟩ := updateRecipe_ok_inv h
  subst hr'
  subst hdb'
  constructor
  · intro htags i
    simp only [htags, syncIds, List.mem_dedup]
    exact resolveNames_mem_iff
  · intro hing i
    simp only [hing, syncIds, List.mem_dedup]
    exact resolveNames_mem_iff

/-- Witness for C1: the spec scenario — a recipe with tags {A, B}, updated
with names [B, C]: afterwards exactly B (id 1) and C (freshly created id 2)
are associated and A (id 0) is not. -/
theorem c1_full_replacement_witness :
    updateRecipe ⟨[⟨0, "A", 1⟩, ⟨1, "B", 1⟩], [],
        [⟨0, 1, "Sample", "", 22, ⟨525, 2⟩, "", [0, 1], []⟩], 2, 0, 1⟩
        1 0 true ⟨none, none, none, none, none, some ["B", "C"], none, none⟩
      = .ok ⟨[⟨0, "A", 1⟩, ⟨1, "B", 1⟩, ⟨2, "C", 1⟩], [],
          [⟨0, 1, "Sample", "", 22, ⟨525, 2⟩, "", [1, 2], []⟩], 3, 0, 1⟩
          ⟨0, 1, "Sample", "", 22, ⟨525, 2⟩, "", [1, 2], []⟩
    ∧ ((1 : Nat) ∈ [1, 2] ↔ ∃ n ∈ ["B", "C"], ∃ t,
        findEntity [⟨0, "A", 1⟩, ⟨1, "B", 1⟩, ⟨2, "C", 1⟩] 1 n = some t
          ∧ t.id = 1)
    ∧ ((0 : Nat) ∈ [1, 2] ↔ ∃ n ∈ ["B", "C"], ∃ t,
        findEntity [⟨0, "A", 1⟩, ⟨1, "B", 1⟩, ⟨2, "C", 1⟩] 1 n = some t
          ∧ t.id = 0) :=
  ⟨by decide,
    (c1_full_replacement ⟨[⟨0, "A", 1⟩, ⟨1, "B", 1⟩], [],
        [⟨0, 1, "Sample", "", 22, ⟨525, 2⟩, "", [0, 1], []⟩], 2, 0, 1⟩
        1 0 true ⟨none, none, none, none, none, some ["B", "C"], none, none⟩
        ["B", "C"] []
        ⟨[⟨0, "A", 1⟩, ⟨1, "B", 1⟩, ⟨2, "C", 1⟩], [],
          [⟨0, 1, "Sample", "", 22, ⟨525, 2⟩, "", [1, 2], []⟩], 3, 0, 1⟩
        ⟨0, 1, "Sample", "", 22, ⟨525, 2⟩, "", [1, 2], []⟩ (by decide)).1 rfl 1,
    (c1_full_replacement ⟨[⟨0, "A", 1⟩, ⟨1, "B", 1⟩], [],
        [⟨0, 1, "Sample", "", 22, ⟨525, 2⟩, "", [0, 1], []⟩], 2, 0, 1⟩
        1 0 true ⟨none, none, none, none, none, some ["B", "C"], none, none⟩
        ["B", "C"] []
        ⟨[⟨0, "A", 1⟩, ⟨1, "B", 1⟩, ⟨2, "C", 1⟩], [],
          [⟨0, 1, "Sample", "", 22, ⟨525, 2⟩, "", [1, 2], []⟩], 3, 0, 1⟩
        ⟨0, 1, "Sample", "", 22, ⟨525, 2⟩, "", [1, 2], []⟩ (by decide)).1 rfl 0⟩

/-- C2: a partial update with no tags field leaves the tag association set
unchanged, while an explicit empty list clears it; symmetrically for
ingredients. -/
theorem c2_absent_vs_empty :
    ∀ (db : DB) (caller rid : Nat) (patch : Bool) (p : RecipePayload)
      (db' : DB) (r' r : RecipeRow),
    findRecipe db caller rid = some r →
    updateRecipe db caller rid patch p = .ok db' r' →
    (p.tags = none → r'.tagIds = r.tagIds)
    ∧ (p.tags = some [] → r'.tagIds = [])
    ∧ (p.ingredients = none → r'.ingredientIds = r.ingredientIds)
    ∧ (p.ingredients = some [] → r'.ingredientIds = []) := by
  intro db caller rid patch p db' r' r hr h
  obtain ⟨r0, hf, hv, hr', hdb'⟩ := updateRecipe_ok_inv h
  rw [hr] at hf
  cases hf
  subst hr'
  refine ⟨fun ht => ?_, fun ht => ?_, fun hi => ?_, fun hi => ?_⟩
  · simp only [ht, syncIds]
  · simp only [ht, syncIds, resolveNames, List.dedup_nil]
  · simp only [hi, syncIds]
  · simp only [hi, syncIds, resolveNames, List.dedup_nil]

/-- Witness for C2: a recipe with one tag and one ingredient, patched with no
tags field and with an explicit empty ingredient list: tags survive untouched,
ingredients are cleared. -/
theorem c2_absent_vs_empty_witness :
    findRecipe ⟨[⟨0, "A", 1⟩], [⟨0, "egg", 1⟩],
        [⟨0, 1, "Sample", "", 22, ⟨525, 2⟩, "", [0], [0]⟩], 1, 1, 1⟩ 1 0
      = some ⟨0, 1, "Sample", "", 22, ⟨525, 2⟩, "", [0], [0]⟩
    ∧ updateRecipe ⟨[⟨0, "A", 1⟩], [⟨0, "egg", 1⟩],
        [⟨0, 1, "Sample", "", 22, ⟨525, 2⟩, "", [0], [0]⟩], 1, 1, 1⟩ 1 0 true
        ⟨none, none, none, none, none, none, some [], none⟩
      = .ok ⟨[⟨0, "A", 1⟩], [⟨0, "egg", 1⟩],
          [⟨0, 1, "Sample", "", 22, ⟨525, 2⟩, "", [0], []⟩], 1, 1, 1⟩
          ⟨0, 1, "Sample", "", 22, ⟨525, 2⟩, "", [0], []⟩
    ∧ ([0] : List Nat) = [0] ∧ ([] : List Nat) = [] :=
  ⟨by decide, by decide,
    (c2_absent_vs_empty ⟨[⟨0, "A", 1⟩], [⟨0, "egg", 1⟩],
        [⟨0, 1, "Sample", "", 22, ⟨525, 2⟩, "", [0], [0]⟩], 1, 1, 1⟩ 1 0 true
        ⟨none, none, none, none, none, none, some [], none⟩
        ⟨[⟨0, "A", 1⟩], [⟨0, "egg", 1⟩],
          [⟨0, 1, "Sample", "", 22, ⟨525, 2⟩, "", [0], []⟩], 1, 1, 1⟩
        ⟨0, 1, "Sample", "", 22, ⟨525, 2⟩, "", [0], []⟩
        ⟨0, 1, "Sample", "", 22, ⟨525, 2⟩, "", [0], [0]⟩
        (by decide) (by decide)).1 rfl,
    (c2_absent_vs_empty ⟨[⟨0, "A", 1⟩], [⟨0, "egg", 1⟩],
        [⟨0, 1, "Sample", "", 22, ⟨525, 2⟩, "", [0], [0]⟩], 1, 1, 1⟩ 1 0 true
        ⟨none, none, none, none, none, none, some [], none⟩
        ⟨[⟨0, "A", 1⟩], [⟨0, "egg", 1⟩],
          [⟨0, 1, "Sample", "", 22, ⟨525, 2⟩, "", [0], []⟩], 1, 1, 1⟩
        ⟨0, 1, "Sample", "", 22, ⟨525, 2⟩, "", [0], []⟩
        ⟨0, 1, "Sample", "", 22, ⟨525, 2⟩, "", [0], [0]⟩
        (by decide) (by decide)).2.2.2 rfl⟩

/-- C3: find-or-create resolution is idempotent: with an entity of exactly
(case-sensitively, untrimmed) the requested name already owned by the owner,
the resolver returns it and creates no row; otherwise it creates exactly one
new row owned by the owner; a second call returns the same entity and leaves
the store unchanged; and a recipe write referencing an existing name
associates that existing entity. -/
theorem c3_idempotent_resolution :
    ∀ (rows : List Entity) (next owner : Nat) (n : String),
    (∀ t, findEntity rows owner n = some t →
      resolve rows next owner n = (t, rows, next))
    ∧ (findEntity rows owner n = none →
      resolve rows next owner n =
        (⟨next, n, owner⟩, rows ++ [⟨next, n, owner⟩], next + 1))
    ∧ resolve (resolve rows next owner n).2.1 (resolve rows next owner n).2.2
        owner n
        = ((resolve rows next owner n).1, (resolve rows next owner n).2.1,
            (resolve rows next owner n).2.2)
    ∧ (∀ (db : DB) (caller : Nat) (p : RecipePayload) (names : List String)
        (t : Entity) (db' : DB) (r : RecipeRow),
        createRecipe db caller p = .ok db' r → p.tags = some names →
        n ∈ names → findEntity db.tags caller n = some t →
        t.id ∈ r.tagIds) := by
  intro rows next owner n
  refine ⟨fun t ht => resolve_found ht, fun h => resolve_notFound h, ?_, ?_⟩
  · exact resolve_found (findEntity_resolve_self rows next owner n)
  · intro db caller p names t db' r hok htags hn hfind
    obtain ⟨title, tm, price, ht, htm, hpr, hv, hr, hdb'⟩ :=
      createRecipe_ok_inv hok
    subst hr
    simp only [htags, Option.getD_some, List.mem_dedup]
    exact resolveNames_mem_iff.mpr
      ⟨n, hn, t, resolveNames_mono names _ _ _ hfind, rfl⟩

/-- Witness for C3: an existing Tag "Lunch" owned by user 1 is returned by the
resolver without creating a row, resolution is stable under a second call, and
a recipe created with tags [Lunch] associates the existing entity id 0. -/
theorem c3_idempotent_resolution_witness :
    resolve [⟨0, "Lunch", 1⟩] 1 1 "Lunch" = (⟨0, "Lunch", 1⟩, [⟨0, "Lunch", 1⟩], 1)
    ∧ 0 ∈ [0] :=
  ⟨(c3_idempotent_resolution [⟨0, "Lunch", 1⟩] 1 1 "Lunch").1 ⟨0, "Lunch", 1⟩
      (by decide),
    (c3_idempotent_resolution [⟨0, "Lunch", 1⟩] 1 1 "Lunch").2.2.2
      ⟨[⟨0, "Lunch", 1⟩], [], [], 1, 0, 0⟩ 1
      ⟨some "Soup", none, some 10, some ⟨200, 2⟩, none, some ["Lunch"], none,
        none⟩
      ["Lunch"] ⟨0, "Lunch", 1⟩
      ⟨[⟨0, "Lunch", 1⟩], [], [⟨0, 1, "Soup", "", 10, ⟨200, 2⟩, "", [0], []⟩],
        1, 0, 1⟩
      ⟨0, 1, "Soup", "", 10, ⟨200, 2⟩, "", [0], []⟩
      (by decide) rfl (by decide) (by decide)⟩

/-- C4: duplicate names in a recipe write's (create or update) tag (resp.
ingredient) list collapse to a single association: the association id list
afterwards has no duplicates,
every id is the resolved id of a supplied name, every supplied name's resolved
id is present (so exactly one association per distinct name); in particular
creating a recipe with tags [Vegan, Vegan] yields exactly one tag named Vegan. -/
theorem c4_duplicates_collapse :
    (∀ (db : DB) (caller : Nat) (p : RecipePayload) (names : List String)
      (db' : DB) (r : RecipeRow),
      createRecipe db caller p = .ok db' r → p.tags = some names →
      r.tagIds.Nodup
      ∧ (∀ i ∈ r.tagIds, ∃ n ∈ names, ∃ t,
          findEntity db'.tags caller n = some t ∧ t.id = i)
      ∧ (∀ n ∈ names, ∃ t,
          findEntity db'.tags caller n = some t ∧ t.id ∈ r.tagIds))
    ∧ (∀ (db : DB) (caller : Nat) (p : RecipePayload) (names : List String)
      (db' : DB) (r : RecipeRow),
      createRecipe db caller p = .ok db' r → p.ingredients = some names →
      r.ingredientIds.Nodup
      ∧ (∀ i ∈ r.ingredientIds, ∃ n ∈ names, ∃ t,
          findEntity db'.ingredients caller n = some t ∧ t.id = i)
      ∧ (∀ n ∈ names, ∃ t,
          findEntity db'.ingredients caller n = some t ∧ t.id ∈ r.ingredientIds))
    ∧ (∀ (db : DB) (caller rid : Nat) (patch : Bool) (p : RecipePayload)
      (names : List String) (db' : DB) (r' : RecipeRow),
      updateRecipe db caller rid patch p = .ok db' r' → p.tags = some names →
      r'.tagIds.Nodup
      ∧ (∀ i ∈ r'.tagIds, ∃ n ∈ names, ∃ t,
          findEntity db'.tags caller n = some t ∧ t.id = i)
      ∧ (∀ n ∈ names, ∃ t,
          findEntity db'.tags caller n = some t ∧ t.id ∈ r'.tagIds))
    ∧ (∀ (db : DB) (caller rid : Nat) (patch : Bool) (p : RecipePayload)
      (names : List String) (db' : DB) (r' : RecipeRow),
      updateRecipe db caller rid patch p = .ok db' r' →
      p.ingredients = some names →
      r'.ingredientIds.Nodup
      ∧ (∀ i ∈ r'.ingredientIds, ∃ n ∈ names, ∃ t,
          findEntity db'.ingredients caller n = some t ∧ t.id = i)
      ∧ (∀ n ∈ names, ∃ t,
          findEntity db'.ingredients caller n = some t
            ∧ t.id ∈ r'.ingredientIds))
    ∧ createRecipe emptyDB 1
        ⟨some "Soup", none, some 10, some ⟨200, 2⟩, none,
          some ["Vegan", "Vegan"], none, none⟩
      = .ok ⟨[⟨0, "Vegan", 1⟩], [],
          [⟨0, 1, "Soup", "", 10, ⟨200, 2⟩, "", [0], []⟩], 1, 0, 1⟩
          ⟨0, 1, "Soup", "", 10, ⟨200, 2⟩, "", [0], []⟩ := by
  refine ⟨?_, ?_, ?_, ?_, by decide⟩
  · intro db caller p names db' r hok htags
    obtain ⟨title, tm, price, ht, htm, hpr, hv, hr, hdb'⟩ :=
      createRecipe_ok_inv hok
    subst hr
    subst hdb'
    simp only [htags, Option.getD_some, List.mem_dedup]
    exact ⟨List.nodup_dedup _,
      fun i hi => resolveNames_backward names _ _ _ i hi,
      fun n hn => resolveNames_forward names _ _ _ n hn⟩
  · intro db caller p names db' r hok hing
    obtain ⟨title, tm, price, ht, htm, hpr, hv, hr, hdb'⟩ :=
      createRecipe_ok_inv hok
    subst hr
    subst hdb'
    simp only [hing, Option.getD_some, List.mem_dedup]
    exact ⟨List.nodup_dedup _,
      fun i hi => resolveNames_backward names _ _ _ i hi,
      fun n hn => resolveNames_forward names _ _ _ n hn⟩
  · intro db caller rid patch p names db' r' hok htags
    obtain ⟨r, hf, hv, hr', hdb'⟩ := updateRecipe_ok_inv hok
    subst hr'
    subst hdb'
    simp only [htags, syncIds, List.mem_dedup]
    exact ⟨List.nodup_dedup _,
      fun i hi => resolveNames_backward names _ _ _ i hi,
      fun n hn => resolveNames_forward names _ _ _ n hn⟩
  · intro db caller rid patch p names db' r' hok hing
    obtain ⟨r, hf, hv, hr', hdb'⟩ := updateRecipe_ok_inv hok
    subst hr'
    subst hdb'
    simp only [hing, syncIds, List.mem_dedup]
    exact ⟨List.nodup_dedup _,
      fun i hi => resolveNames_backward names _ _ _ i hi,
      fun n hn => resolveNames_forward names _ _ _ n hn⟩

/-- Witness for C4: the Vegan scenario instantiates the create part — the
duplicate list [Vegan, Vegan] produces the duplicate-free association list
[0] — and an update of a recipe with the duplicate list [B, B, C] produces
the duplicate-free association list [1, 2]. -/
theorem c4_duplicates_collapse_witness :
    List.Nodup [(0 : Nat)]
    ∧ (∃ t, findEntity [⟨0, "Vegan", 1⟩] 1 "Vegan" = some t ∧ t.id ∈ [0])
    ∧ List.Nodup [(1 : Nat), 2]
    ∧ (∃ t, findEntity [⟨0, "A", 1⟩, ⟨1, "B", 1⟩, ⟨2, "C", 1⟩] 1 "B" = some t
        ∧ t.id ∈ [1, 2]) :=
  ⟨(c4_duplicates_collapse.1 emptyDB 1
      ⟨some "Soup", none, some 10, some ⟨200, 2⟩, none,
        some ["Vegan", "Vegan"], none, none⟩
      ["Vegan", "Vegan"]
      ⟨[⟨0, "Vegan", 1⟩], [], [⟨0, 1, "Soup", "", 10, ⟨200, 2⟩, "", [0], []⟩],
        1, 0, 1⟩
      ⟨0, 1, "Soup", "", 10, ⟨200, 2⟩, "", [0], []⟩ (by decide) rfl).1,
    (c4_duplicates_collapse.1 emptyDB 1
      ⟨some "Soup", none, some 10, some ⟨200, 2⟩, none,
        some ["Vegan", "Vegan"], none, none⟩
      ["Vegan", "Vegan"]
      ⟨[⟨0, "Vegan", 1⟩], [], [⟨0, 1, "Soup", "", 10, ⟨200, 2⟩, "", [0], []⟩],
        1, 0, 1⟩
      ⟨0, 1, "Soup", "", 10, ⟨200, 2⟩, "", [0], []⟩ (by decide) rfl).2.2
      "Vegan" (by decide),
    (c4_duplicates_collapse.2.2.1 ⟨[⟨0, "A", 1⟩, ⟨1, "B", 1⟩], [],
        [⟨0, 1, "Sample", "", 22, ⟨525, 2⟩, "", [0, 1], []⟩], 2, 0, 1⟩ 1 0 true
      ⟨none, none, none, none, none, some ["B", "B", "C"], none, none⟩
      ["B", "B", "C"]
      ⟨[⟨0, "A", 1⟩, ⟨1, "B", 1⟩, ⟨2, "C", 1⟩], [],
        [⟨0, 1, "Sample", "", 22, ⟨525, 2⟩, "", [1, 2], []⟩], 3, 0, 1⟩
      ⟨0, 1, "Sample", "", 22, ⟨525, 2⟩, "", [1, 2], []⟩ (by decide) rfl).1,
    (c4_duplicates_collapse.2.2.1 ⟨[⟨0, "A", 1⟩, ⟨1, "B", 1⟩], [],
        [⟨0, 1, "Sample", "", 22, ⟨525, 2⟩, "", [0, 1], []⟩], 2, 0, 1⟩ 1 0 true
      ⟨none, none, none, none, none, some ["B", "B", "C"], none, none⟩
      ["B", "B", "C"]
      ⟨[⟨0, "A", 1⟩, ⟨1, "B", 1⟩, ⟨2, "C", 1⟩], [],
        [⟨0, 1, "Sample", "", 22, ⟨525, 2⟩, "", [1, 2], []⟩], 3, 0, 1⟩
      ⟨0, 1, "Sample", "", 22, ⟨525, 2⟩, "", [1, 2], []⟩ (by decide) rfl).2.2
      "B" (by decide)⟩

/-- C5 counterexample: the per-owner name uniqueness invariant does not hold
in every state reachable through the public write operations.  From the empty
store, creating a recipe with inline tags [A, B] and then renaming tag B to A
through the plain CRUD tag update reaches a state in which user 1 owns two
tags named A. -/
theorem c5_uniqueness_counterexample :
    Reachable ⟨[⟨0, "A", 1⟩, ⟨1, "A", 1⟩], [],
        [⟨0, 1, "Soup", "", 10, ⟨200, 2⟩, "", [0, 1], []⟩], 2, 0, 1⟩
    ∧ DB.ownerNamesUnique ⟨[⟨0, "A", 1⟩, ⟨1, "A", 1⟩], [],
        [⟨0, 1, "Soup", "", 10, ⟨200, 2⟩, "", [0, 1], []⟩], 2, 0, 1⟩
      = false := by
  constructor
  · exact Relation.ReflTransGen.tail
      (Relation.ReflTransGen.single
        (Step.createR emptyDB 1
          ⟨some "Soup", none, some 10, some ⟨200, 2⟩, none, some ["A", "B"],
            none, none⟩
          ⟨[⟨0, "A", 1⟩, ⟨1, "B", 1⟩], [],
            [⟨0, 1, "Soup", "", 10, ⟨200, 2⟩, "", [0, 1], []⟩], 2, 0, 1⟩
          ⟨0, 1, "Soup", "", 10, ⟨200, 2⟩, "", [0, 1], []⟩ (by decide)))
      (Step.updateT
        ⟨[⟨0, "A", 1⟩, ⟨1, "B", 1⟩], [],
          [⟨0, 1, "Soup", "", 10, ⟨200, 2⟩, "", [0, 1], []⟩], 2, 0, 1⟩
        1 1 "A"
        ⟨[⟨0, "A", 1⟩, ⟨1, "A", 1⟩], [],
          [⟨0, 1, "Soup", "", 10, ⟨200, 2⟩, "", [0, 1], []⟩], 2, 0, 1⟩
        ⟨1, "A", 1⟩ (by decide))
  · decide

/-- C5 amended: in every state reachable through the resolver-driven writes
(recipe create and recipe update with inline names) the per-owner name
uniqueness invariant holds for tags and for ingredients; the tag/ingredient
rename operation is the one public write that can break it. -/
theorem c5_uniqueness_amended :
    ∀ db : DB, SyncReachable db → db.ownerNamesUnique = true := by
  intro db h
  unfold SyncReachable at h
  induction h with
  | refl => decide
  | tail hprev hstep ih =>
      cases hstep with
      | createR a1 a2 a3 a4 hok =>
          obtain ⟨title, tm, price, ht, htm, hpr, hv, hr, hdb2⟩ :=
            createRecipe_ok_inv hok
          subst hdb2
          simp only [DB.ownerNamesUnique, Bool.and_eq_true] at ih ⊢
          exact ⟨resolveNames_uniq _ _ _ _ ih.1, resolveNames_uniq _ _ _ _ ih.2⟩
      | updateR b1 b2 b3 b4 b5 b6 hok =>
          obtain ⟨r0, hf, hv, hr, hdb2⟩ := updateRecipe_ok_inv hok
          subst hdb2
          simp only [DB.ownerNamesUnique, Bool.and_eq_true] at ih ⊢
          exact ⟨syncIds_uniq _ ih.1, syncIds_uniq _ ih.2⟩

/-- Witness for C5 amended: one resolver-driven write from the empty store
(the [A, B] recipe creation) reaches a state and the invariant holds there. -/
theorem c5_uniqueness_amended_witness :
    DB.ownerNamesUnique ⟨[⟨0, "A", 1⟩, ⟨1, "B", 1⟩], [],
        [⟨0, 1, "Soup", "", 10, ⟨200, 2⟩, "", [0, 1], []⟩], 2, 0, 1⟩ = true :=
  c5_uniqueness_amended
    ⟨[⟨0, "A", 1⟩, ⟨1, "B", 1⟩], [],
      [⟨0, 1, "Soup", "", 10, ⟨200, 2⟩, "", [0, 1], []⟩], 2, 0, 1⟩
    (Relation.ReflTransGen.single
      (SyncStep.createR emptyDB 1
        ⟨some "Soup", none, some 10, some ⟨200, 2⟩, none, some ["A", "B"],
          none, none⟩
        ⟨[⟨0, "A", 1⟩, ⟨1, "B", 1⟩], [],
          [⟨0, 1, "Soup", "", 10, ⟨200, 2⟩, "", [0, 1], []⟩], 2, 0, 1⟩
        ⟨0, 1, "Soup", "", 10, ⟨200, 2⟩, "", [0, 1], []⟩ (by decide)))

/-- C6: a recipe update never writes the owner: the outcome is independent of
any user field in the payload, every successful update leaves the owner equal
to the loaded recipe's owner, and a patch consisting of nothing but a foreign
user value succeeds without error and returns the recipe unchanged. -/
theorem c6_owner_immutable :
    ∀ (db : DB) (caller rid : Nat) (patch : Bool) (p : RecipePayload)
      (w : Option Nat),
    updateRecipe db caller rid patch { p with user := w }
      = updateRecipe db caller rid patch p
    ∧ (∀ (db' : DB) (r' r : RecipeRow),
        updateRecipe db caller rid patch p = .ok db' r' →
        findRecipe db caller rid = some r → r'.user = r.user)
    ∧ (∀ (y : Nat) (r : RecipeRow), findRecipe db caller rid = some r →
        ∃ db2, updateRecipe db caller rid true
          ⟨none, none, none, none, none, none, none, some y⟩ = .ok db2 r) := by
  intro db caller rid patch p w
  refine ⟨?_, ?_, ?_⟩
  · cases p
    rfl
  · intro db' r' r h hr
    obtain ⟨r0, hf, hv, hr', hdb'⟩ := updateRecipe_ok_inv h
    rw [hr] at hf
    cases hf
    subst hr'
    rfl
  · intro y r hf
    exact ⟨_, by rw [updateRecipe, hf]; rfl⟩

/-- Witness for C6: patching a recipe owned by user 1 with user := 7 succeeds
and the stored owner is still 1. -/
theorem c6_owner_immutable_witness :
    updateRecipe ⟨[], [], [⟨0, 1, "Sample", "", 22, ⟨525, 2⟩, "", [], []⟩],
        0, 0, 1⟩ 1 0 true ⟨none, none, none, none, none, none, none, some 7⟩
      = updateRecipe ⟨[], [], [⟨0, 1, "Sample", "", 22, ⟨525, 2⟩, "", [], []⟩],
        0, 0, 1⟩ 1 0 true ⟨none, none, none, none, none, none, none, none⟩
    ∧ ∃ db2, updateRecipe ⟨[], [],
        [⟨0, 1, "Sample", "", 22, ⟨525, 2⟩, "", [], []⟩], 0, 0, 1⟩ 1 0 true
        ⟨none, none, none, none, none, none, none, some 7⟩
      = .ok db2 ⟨0, 1, "Sample", "", 22, ⟨525, 2⟩, "", [], []⟩ :=
  ⟨(c6_owner_immutable ⟨[], [],
      [⟨0, 1, "Sample", "", 22, ⟨525, 2⟩, "", [], []⟩], 0, 0, 1⟩ 1 0 true
      ⟨none, none, none, none, none, none, none, none⟩ (some 7)).1,
    (c6_owner_immutable ⟨[], [],
      [⟨0, 1, "Sample", "", 22, ⟨525, 2⟩, "", [], []⟩], 0, 0, 1⟩ 1 0 true
      ⟨none, none, none, none, none, none, none, none⟩ (some 7)).2.2 7
      ⟨0, 1, "Sample", "", 22, ⟨525, 2⟩, "", [], []⟩ (by decide)⟩

/-- C7: for a recipe owned by someone else, read, update and delete behave
exactly as for a nonexistent id — the identical NotFound outcome carrying the
untouched store — so the recipe and all its associations are unchanged and a
foreign owner is indistinguishable from nonexistence. -/
theorem c7_ownership_isolation :
    ∀ (db : DB) (r : RecipeRow) (y : Nat) (patch : Bool) (p : RecipePayload),
    db.WF → r ∈ db.recipes → r.user ≠ y →
    (findRecipe db y r.id = none
      ∧ updateRecipe db y r.id patch p = .notFound db
      ∧ deleteRecipe db y r.id = .notFound db)
    ∧ ∀ rid, (∀ s ∈ db.recipes, s.id ≠ rid) →
        findRecipe db y rid = none
        ∧ updateRecipe db y rid patch p = .notFound db
        ∧ deleteRecipe db y rid = .notFound db := by
  intro db r y patch p hwf hr hy
  have hnone : findRecipe db y r.id = none := by
    apply List.find?_eq_none.mpr
    intro s hs hc
    simp only [Bool.and_eq_true, beq_iff_eq] at hc
    have hsr : s = r := List.inj_on_of_nodup_map hwf.2.2 hs hr hc.1
    exact hy (hsr ▸ hc.2)
  constructor
  · exact ⟨hnone, by rw [updateRecipe, hnone], by rw [deleteRecipe, hnone]⟩
  · intro rid hrid
    have hnone' : findRecipe db y rid = none := by
      apply List.find?_eq_none.mpr
      intro s hs hc
      simp only [Bool.and_eq_true, beq_iff_eq] at hc
      exact hrid s hs hc.1
    exact ⟨hnone', by rw [updateRecipe, hnone'], by rw [deleteRecipe, hnone']⟩

/-- Witness for C7: user 1 requesting user 2's recipe (id 0) gets NotFound
with the store unchanged, from read, update and delete alike. -/
theorem c7_ownership_isolation_witness :
    findRecipe ⟨[], [], [⟨0, 2, "Sample", "", 22, ⟨525, 2⟩, "", [], []⟩],
        0, 0, 1⟩ 1 0 = none
    ∧ updateRecipe ⟨[], [], [⟨0, 2, "Sample", "", 22, ⟨525, 2⟩, "", [], []⟩],
        0, 0, 1⟩ 1 0 true ⟨some "X", none, none, none, none, none, none, none⟩
      = .notFound ⟨[], [], [⟨0, 2, "Sample", "", 22, ⟨525, 2⟩, "", [], []⟩],
        0, 0, 1⟩
    ∧ deleteRecipe ⟨[], [], [⟨0, 2, "Sample", "", 22, ⟨525, 2⟩, "", [], []⟩],
        0, 0, 1⟩ 1 0
      = .notFound ⟨[], [], [⟨0, 2, "Sample", "", 22, ⟨525, 2⟩, "", [], []⟩],
        0, 0, 1⟩ :=
  (c7_ownership_isolation ⟨[], [],
      [⟨0, 2, "Sample", "", 22, ⟨525, 2⟩, "", [], []⟩], 0, 0, 1⟩
      ⟨0, 2, "Sample", "", 22, ⟨525, 2⟩, "", [], []⟩ 1 true
      ⟨some "X", none, none, none, none, none, none, none⟩
      (by decide) (by decide) (by decide)).1

/-- C9: listing tags with the assigned-only flag set returns exactly the
owner's tags that are associated with at least one of the owner's recipes
(one with zero such associations is excluded), each appearing exactly once
(the result has no duplicates even when a tag is used by several recipes),
ordered by name descending. -/
theorem c9_assigned_only :
    ∀ (db : DB) (owner : Nat), db.WF →
    (∀ t, t ∈ listTags db owner true ↔
      t ∈ db.tags ∧ t.user = owner
        ∧ ∃ r ∈ db.recipes, r.user = owner ∧ t.id ∈ r.tagIds)
    ∧ (listTags db owner true).Nodup
    ∧ (listTags db owner true).Sorted nameGE := by
  intro db owner hwf
  refine ⟨?_, ?_, List.sorted_insertionSort nameGE _⟩
  · intro t
    unfold listTags
    rw [List.mem_insertionSort, List.mem_filter]
    simp only [assignedTag, Bool.not_true, Bool.false_or, Bool.and_eq_true,
      beq_iff_eq, List.any_eq_true, List.elem_eq_mem, decide_eq_true_eq,
      and_assoc]
  · have hfilter : (db.tags.filter fun t =>
        t.user == owner && (!true || assignedTag db owner t.id)).Nodup :=
      (List.Nodup.of_map _ hwf.1).filter _
    exact ((List.perm_insertionSort nameGE _).nodup_iff).mpr hfilter

/-- Witness for C9: user 1 owns tags 0 (used by both recipes), 1 (unused) and
2 (used once); the assigned-only listing is exactly [tag 2, tag 0] — tag 1
excluded, tag 0 once despite two associations, names descending. -/
theorem c9_assigned_only_witness :
    (⟨1, "b unused", 1⟩ ∈ listTags ⟨[⟨0, "a used", 1⟩, ⟨1, "b unused", 1⟩,
        ⟨2, "c used", 1⟩], [],
        [⟨0, 1, "r1", "", 5, ⟨100, 2⟩, "", [0, 2], []⟩,
          ⟨1, 1, "r2", "", 5, ⟨100, 2⟩, "", [0], []⟩], 3, 0, 2⟩ 1 true ↔
      (⟨1, "b unused", 1⟩ : Entity) ∈ [⟨0, "a used", 1⟩, ⟨1, "b unused", 1⟩,
        ⟨2, "c used", 1⟩] ∧ (1 : Nat) = 1
        ∧ ∃ r ∈ [(⟨0, 1, "r1", "", 5, ⟨100, 2⟩, "", [0, 2], []⟩ : RecipeRow),
            ⟨1, 1, "r2", "", 5, ⟨100, 2⟩, "", [0], []⟩],
            r.user = 1 ∧ (1 : Nat) ∈ r.tagIds)
    ∧ (listTags ⟨[⟨0, "a used", 1⟩, ⟨1, "b unused", 1⟩, ⟨2, "c used", 1⟩], [],
        [⟨0, 1, "r1", "", 5, ⟨100, 2⟩, "", [0, 2], []⟩,
          ⟨1, 1, "r2", "", 5, ⟨100, 2⟩, "", [0], []⟩], 3, 0, 2⟩ 1 true).Nodup
    ∧ (listTags ⟨[⟨0, "a used", 1⟩, ⟨1, "b unused", 1⟩, ⟨2, "c used", 1⟩], [],
        [⟨0, 1, "r1", "", 5, ⟨100, 2⟩, "", [0, 2], []⟩,
          ⟨1, 1, "r2", "", 5, ⟨100, 2⟩, "", [0], []⟩], 3, 0, 2⟩ 1
        true).Sorted nameGE :=
  ⟨(c9_assigned_only ⟨[⟨0, "a used", 1⟩, ⟨1, "b unused", 1⟩,
        ⟨2, "c used", 1⟩], [],
        [⟨0, 1, "r1", "", 5, ⟨100, 2⟩, "", [0, 2], []⟩,
          ⟨1, 1, "r2", "", 5, ⟨100, 2⟩, "", [0], []⟩], 3, 0, 2⟩ 1
      (by decide)).1 ⟨1, "b unused", 1⟩,
    (c9_assigned_only ⟨[⟨0, "a used", 1⟩, ⟨1, "b unused", 1⟩,
        ⟨2, "c used", 1⟩], [],
        [⟨0, 1, "r1", "", 5, ⟨100, 2⟩, "", [0, 2], []⟩,
          ⟨1, 1, "r2", "", 5, ⟨100, 2⟩, "", [0], []⟩], 3, 0, 2⟩ 1
      (by decide)).2.1,
    (c9_assigned_only ⟨[⟨0, "a used", 1⟩, ⟨1, "b unused", 1⟩,
        ⟨2, "c used", 1⟩], [],
        [⟨0, 1, "r1", "", 5, ⟨100, 2⟩, "", [0, 2], []⟩,
          ⟨1, 1, "r2", "", 5, ⟨100, 2⟩, "", [0], []⟩], 3, 0, 2⟩ 1
      (by decide)).2.2⟩

/-- The scalar-invalidity predicate of the amended C8, written after the
amended claim's words: a create (full) write is rejected iff the title is
absent or empty (whitespace-only) after trimming or longer than 255
characters, or time_minutes is absent or outside the 32-bit range, or the
price is absent or written with more than 2 fractional digits or more than 3
whole digits, or a provided link exceeds 255 characters after trimming.
Negative time_minutes and negative price are not rejected. -/
def specInvalidScalars (p : RecipePayload) : Prop :=
  (match p.title with
    | none => True
    | some t => strip t = "" ∨ 255 < (strip t).length)
  ∨ (match p.time_minutes with
    | none => True
    | some t => t < -2147483648 ∨ 2147483647 < t)
  ∨ (match p.price with
    | none => True
    | some d => 2 < d.scale ∨ 10 ^ 5 ≤ d.mantissa.natAbs
        ∨ 10 ^ (3 + d.scale) ≤ d.mantissa.natAbs)
  ∨ (match p.link with
    | none => False
    | some l => 255 < (strip l).length)

theorem validateScalars_true_iff (p : RecipePayload) :
    validateScalars false p = true ↔ ¬ specInvalidScalars p := by
  unfold validateScalars specInvalidScalars validTitle validTime validPrice
    validLink
  cases p.title <;> cases p.time_minutes <;> cases p.price <;> cases p.link <;>
    simp [Bool.and_eq_true, decide_eq_true_eq, bne_iff_ne, not_or, not_lt,
      not_le, and_assoc]

theorem validateScalars_false_iff (p : RecipePayload) :
    validateScalars false p = false ↔ specInvalidScalars p := by
  constructor
  · intro hf
    by_contra hbad
    rw [(validateScalars_true_iff p).mpr hbad] at hf
    cases hf
  · intro hbad
    cases h : validateScalars false p with
    | true =>
        exact absurd ((validateScalars_true_iff p).mp h) (not_not_intro hbad)
    | false => rfl

theorem validateScalars_true_defined {p : RecipePayload}
    (h : validateScalars false p = true) :
    ∃ t tm d, p.title = some t ∧ p.time_minutes = some tm
      ∧ p.price = some d := by
  rw [validateScalars] at h
  cases ht : p.title with
  | none => rw [ht] at h; simp at h
  | some t =>
      cases htm : p.time_minutes with
      | none => rw [ht, htm] at h; simp at h
      | some tm =>
          cases hpr : p.price with
          | none => rw [ht, htm, hpr] at h; simp at h
          | some d => exact ⟨t, tm, d, rfl, rfl, rfl⟩

/-- C8 counterexample: the claim calls a write with negative time_minutes, or
with a negative price, or with a price not having exactly 2 fractional
digits, invalid and says it must fail with ValidationError; the code accepts
all three — a create with time_minutes = -5 succeeds, one with price -2.50
succeeds, and one with price 2.5 (one fractional digit) succeeds. -/
theorem c8_scalar_validation_counterexample :
    (createRecipe emptyDB 1
      ⟨some "Soup", none, some (-5), some ⟨200, 2⟩, none, none, none,
        none⟩).isOk = true
    ∧ (createRecipe emptyDB 1
      ⟨some "Soup", none, some 10, some ⟨-250, 2⟩, none, none, none,
        none⟩).isOk = true
    ∧ (createRecipe emptyDB 1
      ⟨some "Soup", none, some 10, some ⟨25, 1⟩, none, none, none,
        none⟩).isOk = true := by decide

/-- C8 amended: a recipe create (or full update of an existing recipe) fails
with ValidationError, leaving the store untouched, exactly when
`specInvalidScalars` holds of the payload — title absent/blank/overlong,
time_minutes absent or out of 32-bit range, price absent or with more than 2
fractional or 3 whole digits, link overlong; any other payload passes this
validation step (in particular negative time_minutes and negative price
pass). -/
theorem c8_scalar_validation_amended :
    ∀ (db : DB) (caller : Nat) (p : RecipePayload),
    (specInvalidScalars p → createRecipe db caller p = .validationError db)
    ∧ (¬ specInvalidScalars p → (createRecipe db caller p).isOk = true)
    ∧ (∀ rid r, findRecipe db caller rid = some r →
        (specInvalidScalars p →
          updateRecipe db caller rid false p = .validationError db)
        ∧ (¬ specInvalidScalars p →
          (updateRecipe db caller rid false p).isOk = true)) := by
  intro db caller p
  refine ⟨?_, ?_, ?_⟩
  · intro hbad
    have hv : validateScalars false p = false :=
      (validateScalars_false_iff p).mpr hbad
    rw [createRecipe, hv]
    rfl
  · intro hgood
    have hv : validateScalars false p = true := by
      cases h : validateScalars false p with
      | false => exact absurd ((validateScalars_false_iff p).mp h) hgood
      | true => rfl
    obtain ⟨t, tm, d, ht, htm, hpr⟩ := validateScalars_true_defined hv
    rw [createRecipe, hv, ht, htm, hpr]
    rfl
  · intro rid r hf
    constructor
    · intro hbad
      have hv : validateScalars false p = false :=
        (validateScalars_false_iff p).mpr hbad
      rw [updateRecipe, hf, hv]
      rfl
    · intro hgood
      have hv : validateScalars false p = true := by
        cases h : validateScalars false p with
        | false => exact absurd ((validateScalars_false_iff p).mp h) hgood
        | true => rfl
      rw [updateRecipe, hf, hv]
      rfl

/-- Witness for C8 amended: a payload with a blank title is rejected with the
store untouched, and the negative-time payload passes validation. -/
theorem c8_scalar_validation_amended_witness :
    specInvalidScalars ⟨some "", none, some 10, some ⟨200, 2⟩, none, none,
      none, none⟩
    ∧ createRecipe emptyDB 1 ⟨some "", none, some 10, some ⟨200, 2⟩, none,
        none, none, none⟩ = .validationError emptyDB
    ∧ (createRecipe emptyDB 1 ⟨some "Soup", none, some (-5), some ⟨200, 2⟩,
        none, none, none, none⟩).isOk = true :=
  ⟨by unfold specInvalidScalars; decide,
    (c8_scalar_validation_amended emptyDB 1
      ⟨some "", none, some 10, some ⟨200, 2⟩, none, none, none, none⟩).1
      (by unfold specInvalidScalars; decide),
    (c8_scalar_validation_amended emptyDB 1
      ⟨some "Soup", none, some (-5), some ⟨200, 2⟩, none, none, none,
        none⟩).2.1
      (by unfold specInvalidScalars; decide)⟩

/-! ### The user manager (src/app/core/models.py) -/

/-- Row of core.models.User: email (EmailField, unique=True), name,
is_active default true, is_staff default false; the password is kept as the
optional raw value handed to set_password (its hashing is external django
machinery no claim concerns). -/
structure UserRow where
  email : String
  name : String
  is_active : Bool
  is_staff : Bool
  password : Option String
deriving DecidableEq

/-- Split a character list at the last occurrence of c (python's
s.rsplit(c, 1)); none when c does not occur. -/
def rsplitLast? (c : Char) : List Char → Option (List Char × List Char)
  | [] => none
  | x :: xs =>
      match rsplitLast? c xs with
      | some q => some (x :: q.1, q.2)
      | none => if x = c then some ([], xs) else none

/-- django BaseUserManager.normalize_email, called by create_user
(src/app/core/models.py line 32): strip surrounding whitespace, split at the
last '@' and lower-case the part after it; an input without '@' is returned
unchanged (whitespace intact). -/
def normalize_email (email : String) : String :=
  match rsplitLast? '@' (pyStrip email.toList) with
  | none => email
  | some q => ⟨q.1⟩ ++ "@" ++ ⟨q.2.map Char.toLower⟩

/-- Outcome of UserManager.create_user; error constructors carry the
unchanged user table. -/
inductive CreateUserResult where
  | valueError (users : List UserRow)
  | integrityError (users : List UserRow)
  | ok (users : List UserRow) (u : UserRow)
deriving DecidableEq

def CreateUserResult.isOk : CreateUserResult → Bool
  | .ok _ _ => true
  | _ => false

/-- UserManager.create_user (src/app/core/models.py lines 28-36): an empty
email raises ValueError before anything is saved; otherwise a user with the
normalized email is built and saved — the unique=True constraint on
User.email (line 53) makes the save fail with an integrity error when another
user already stores that email. -/
def create_user (users : List UserRow) (email : String)
    (password : Option String) (nm : String) : CreateUserResult :=
  if email = "" then .valueError users
  else
    let e := normalize_email email
    if users.any (fun u => u.email == e) then .integrityError users
    else .ok (users ++ [⟨e, nm, true, false, password⟩])
      ⟨e, nm, true, false, password⟩

/-- The normalization claim C10 describes, written after the claim's words:
the input itself with the domain portion (the part after the last '@')
lower-cased and the local portion preserved; an input without '@' kept as
is. -/
def claimNormalize (email : String) : String :=
  match rsplitLast? '@' email.toList with
  | none => email
  | some q => ⟨q.1⟩ ++ "@" ++ ⟨q.2.map Char.toLower⟩

theorem rsplitLast?_eq_none {c : Char} :
    ∀ {xs : List Char}, c ∉ xs → rsplitLast? c xs = none := by
  intro xs
  induction xs with
  | nil => intro h; rfl
  | cons x xs ih =>
      intro h
      have hxc : ¬ x = c := fun he => h (by rw [← he]; exact List.mem_cons_self _ _)
      rw [rsplitLast?, ih fun hm => h (List.mem_cons_of_mem _ hm), if_neg hxc]

theorem rsplitLast?_append {c : Char} {dcs : List Char} (hd : c ∉ dcs) :
    ∀ lcs : List Char, rsplitLast? c (lcs ++ c :: dcs) = some (lcs, dcs) := by
  intro lcs
  induction lcs with
  | nil =>
      rw [List.nil_append, rsplitLast?, rsplitLast?_eq_none hd, if_pos rfl]
  | cons x lcs ih =>
      rw [List.cons_append, rsplitLast?, ih]

/-- C10 counterexample: create_user is not a total success on every non-empty
email, and the stored email is not always the input with only the domain
lower-cased.  Creating "a@b.com" twice hits the unique-email constraint the
second time (no user is returned), and the padded input " a@B.com" is stored
as "a@b.com" — not as " a@b.com", the input with its domain lower-cased and
its local portion preserved. -/
theorem c10_create_user_counterexample :
    (create_user [⟨"a@b.com", "", true, false, none⟩] "a@b.com" none
      "").isOk = false
    ∧ create_user [] " a@B.com" none ""
        = .ok [⟨"a@b.com", "", true, false, none⟩]
            ⟨"a@b.com", "", true, false, none⟩
    ∧ claimNormalize " a@B.com" = " a@b.com"
    ∧ (" a@b.com" : String) ≠ "a@b.com" := by decide

/-- C10 amended: create_user with an empty email raises ValueError and
persists nothing; with a non-empty email whose normalized form (surrounding
whitespace stripped, the part after the last '@' lower-cased, the rest
preserved; inputs without '@' kept unchanged) is not already stored, it
persists and returns exactly one user carrying that normalized email; when
the normalized email is already stored, the save raises an integrity error
and persists nothing.  For a whitespace-free email of shape local@domain with
no '@' in the domain, the stored email is the input with the domain
lower-cased and the local portion preserved, as the claim says. -/
theorem c10_create_user_amended :
    ∀ (users : List UserRow) (email : String) (password : Option String)
      (nm : String),
    (email = "" → create_user users email password nm = .valueError users)
    ∧ (email ≠ "" → (∃ u ∈ users, u.email = normalize_email email) →
        create_user users email password nm = .integrityError users)
    ∧ (email ≠ "" → (∀ u ∈ users, u.email ≠ normalize_email email) →
        create_user users email password nm
          = .ok (users ++ [⟨normalize_email email, nm, true, false, password⟩])
              ⟨normalize_email email, nm, true, false, password⟩)
    ∧ (∀ lcs dcs : List Char, '@' ∉ dcs →
        pyStrip (lcs ++ '@' :: dcs) = lcs ++ '@' :: dcs →
        normalize_email ⟨lcs ++ '@' :: dcs⟩
          = ⟨lcs⟩ ++ "@" ++ ⟨dcs.map Char.toLower⟩) := by
  intro users email password nm
  refine ⟨fun he => ?_, fun he hex => ?_, fun he hnone => ?_, ?_⟩
  · rw [create_user, if_pos he]
  · rw [create_user, if_neg he, if_pos ?_]
    rcases hex with ⟨u, hu, heq⟩
    exact List.any_eq_true.mpr ⟨u, hu, beq_iff_eq.mpr heq⟩
  · rw [create_user, if_neg he, if_neg ?_]
    intro hany
    rcases List.any_eq_true.mp hany with ⟨u, hu, hbeq⟩
    exact hnone u hu (beq_iff_eq.mp hbeq)
  · intro lcs dcs hd hstrip
    rw [normalize_email]
    have : (⟨lcs ++ '@' :: dcs⟩ : String).toList = lcs ++ '@' :: dcs := rfl
    rw [this, hstrip, rsplitLast?_append hd]

/-- Witness for C10 amended: creating "x@Y.com" on an empty user table
persists one user whose stored email is "x@y.com". -/
theorem c10_create_user_amended_witness :
    ("x@Y.com" : String) ≠ ""
    ∧ create_user [] "x@Y.com" none "n"
        = .ok [⟨"x@y.com", "n", true, false, none⟩]
            ⟨"x@y.com", "n", true, false, none⟩ :=
  ⟨by decide,
    by
      have h := (c10_create_user_amended [] "x@Y.com" none "n").2.2.1
        (by decide) (by intro u hu; cases hu)
      rw [h]
      decide⟩

end RecipeApp
